import Mathlib

/-!
A shallow embedding of the search core of the `databaseSnake` repository
(package `dbsearcher`): the line-reading strategies and parsers from
`search/parsers.py`, the file indexer from `search/indexer.py`, and the
search engine from `search/engine.py`.  File contents are modelled as
decoded character lists and the filesystem as explicit environment values;
wall-clock durations and log output are not modelled, and `SearchStats`
therefore carries only its two integer fields.
-/

namespace DbSearcher

/-- Whitespace test of Python `str.strip()` restricted to the ASCII
whitespace characters it strips: space, tab, line feed, carriage return,
vertical tab and form feed. -/
def pyIsSpace (c : Char) : Bool :=
  c == ' ' || c == '\t' || c == '\n' || c == '\r' || c == '\x0b' || c == '\x0c'

/-- Python `str.strip()` with no arguments: remove leading and trailing
whitespace.  Used for the `content` field by `TextParser.parse` and
`SQLParser.parse` and for query normalization in `SearchEngine`. -/
def pyStrip (cs : List Char) : List Char :=
  ((cs.dropWhile pyIsSpace).reverse.dropWhile pyIsSpace).reverse

/-- Python `line.rstrip` on the two-character set carriage return and line
feed, as applied to each yielded line by both read strategies of
`BaseParser`: every trailing carriage return or line feed is removed. -/
def pyRstripRN (cs : List Char) : List Char :=
  (cs.reverse.dropWhile (fun c => c == '\r' || c == '\n')).reverse

/-- Split file content at line feeds, mirroring repeated `mm.readline` in
`BaseParser._read_file_mmap` as well as text-file iteration: each segment
excludes its terminating line feed, and content ending in a line feed
produces no trailing empty segment.  `acc` holds the current segment in
reverse order. -/
def splitNLAux : List Char → List Char → List (List Char)
  | acc, [] => if acc.isEmpty then [] else [acc.reverse]
  | acc, c :: rest =>
    if c = '\n' then acc.reverse :: splitNLAux [] rest
    else splitNLAux (c :: acc) rest

/-- Split content into lines at line feeds (see `splitNLAux`). -/
def splitNL (cs : List Char) : List (List Char) :=
  splitNLAux [] cs

/-- Number the elements of a list consecutively starting from `n`,
mirroring `enumerate(f, start=1)` and the explicit `line_num` counter. -/
def numberFrom {α : Type} (n : Nat) : List α → List (Nat × α)
  | [] => []
  | a :: as => (n, a) :: numberFrom (n + 1) as

/-- Universal-newline translation performed by Python text-mode reads, as
used by `BaseParser._read_file_standard` through `open(file, "r", ...)`:
a carriage-return-line-feed pair and a bare carriage return each become a
single line feed.  The mmap strategy performs no such translation. -/
def univNewlines : List Char → List Char
  | [] => []
  | [c] => if c = '\r' then ['\n'] else [c]
  | c :: d :: rest =>
    if c = '\r' then
      if d = '\n' then '\n' :: univNewlines rest
      else '\n' :: univNewlines (d :: rest)
    else c :: univNewlines (d :: rest)

/-- Every carriage return in the content is immediately followed by a line
feed, i.e. the content has no classic-Mac bare carriage-return line ends. -/
def noBareCR : List Char → Bool
  | [] => true
  | [c] => if c = '\r' then false else true
  | c :: d :: rest =>
    if c = '\r' then
      if d = '\n' then noBareCR rest else false
    else noBareCR (d :: rest)

/-- Embedding of `BaseParser._read_file_mmap`: the memory-mapped strategy
reads raw bytes, splits them at line feeds via `mm.readline`, decodes each
line and strips trailing carriage returns and line feeds, yielding
1-indexed numbered lines.  Decoding with `errors="ignore"` is byte-level
identical between the two strategies (a multi-byte sequence never contains
the line-feed byte), so content is modelled as already decoded. -/
def readFileMmap (content : List Char) : List (Nat × List Char) :=
  numberFrom 1 ((splitNL content).map pyRstripRN)

/-- Embedding of `BaseParser._read_file_standard`: the buffered strategy
opens the file in text mode, so Python first applies universal-newline
translation, then iterates lines, stripping trailing carriage returns and
line feeds from each. -/
def readFileStandard (content : List Char) : List (Nat × List Char) :=
  numberFrom 1 ((splitNL (univNewlines content)).map pyRstripRN)

/-- Embedding of `BaseParser.read_lines`: use the memory-mapped strategy
when the file size strictly exceeds the threshold (`size > threshold` in
`_should_use_mmap`), else the buffered standard strategy. -/
def readLines (sizeBytes threshold : Nat) (content : List Char) : List (Nat × List Char) :=
  if threshold < sizeBytes then readFileMmap content else readFileStandard content

/-- File format tags, from `dbsearcher.types.MatchType`. -/
inductive MatchType where
  | csv
  | txt
  | sql
deriving DecidableEq

/-- Search result record, from `dbsearcher.types.SearchResult`. -/
structure SearchResult where
  file_name : List Char
  file_path : List Char
  line_number : Nat
  content : List Char
  match_type : MatchType
deriving DecidableEq

/-- Concatenated image of a character-level fold over a string, mirroring
Python `str.casefold` applied to a whole string (a single character may
fold to several, which is why the fold maps to a character list). -/
def foldStr (fold : Char → List Char) (cs : List Char) : List Char :=
  (cs.map fold).flatten

/-- Python substring containment `needle in hay`: contiguous infix test,
implemented as a scan for a prefix match at each suffix of the haystack. -/
def isSub (needle : List Char) : List Char → Bool
  | [] => needle.isEmpty
  | c :: t => needle.isPrefixOf (c :: t) || isSub needle t

/-- Line-match test of `TextParser.parse` and `SQLParser.parse`: compare
verbatim when case-sensitive, else compare the case-folded query against
the case-folded candidate line. -/
def lineMatches (fold : Char → List Char) (caseSensitive : Bool)
    (query line : List Char) : Bool :=
  if caseSensitive then isSub query line
  else isSub (foldStr fold query) (foldStr fold line)

/-- Python `str.casefold` restricted to the ASCII fragment, where folding
coincides with ASCII lowercasing.  The full Unicode fold table lives in the
Python runtime, not in this repository; parsers below take the fold as a
parameter and concrete instances use this ASCII fragment. -/
def asciiCasefold (c : Char) : List Char :=
  [c.toLower]

/-- Embedding of `TextParser.parse`: stream the file's lines through
`read_lines`, keep those matching the (optionally case-folded) query, and
build a `SearchResult` whose content is the fully stripped line and whose
match type is TXT. -/
def textParse (fold : Char → List Char) (caseSensitive : Bool)
    (query fileName filePath : List Char) (sizeBytes threshold : Nat)
    (content : List Char) : List SearchResult :=
  (readLines sizeBytes threshold content).filterMap fun p =>
    if lineMatches fold caseSensitive query p.2 then
      some ⟨fileName, filePath, p.1, pyStrip p.2, MatchType.txt⟩
    else none

/-- Embedding of `SQLParser.parse`: identical to the text parser except
that results carry the SQL match type. -/
def sqlParse (fold : Char → List Char) (caseSensitive : Bool)
    (query fileName filePath : List Char) (sizeBytes threshold : Nat)
    (content : List Char) : List SearchResult :=
  (readLines sizeBytes threshold content).filterMap fun p =>
    if lineMatches fold caseSensitive query p.2 then
      some ⟨fileName, filePath, p.1, pyStrip p.2, MatchType.sql⟩
    else none

/-- Embedding of `CSVParser.parse`.  Rows are taken as already produced by
`csv.reader` (the quoting-aware splitting lives in the Python standard
library); each row is flattened by joining its fields with a comma and a
space, matched by substring containment against that flattened string, and
emitted with the flattened string, unstripped, as content. -/
def csvParse (fold : Char → List Char) (caseSensitive : Bool)
    (query fileName filePath : List Char)
    (rows : List (List (List Char))) : List SearchResult :=
  (numberFrom 1 rows).filterMap fun p =>
    if (if caseSensitive then isSub query (List.intercalate [',', ' '] p.2)
        else isSub (foldStr fold query)
          (foldStr fold (List.intercalate [',', ' '] p.2))) then
      some ⟨fileName, filePath, p.1, List.intercalate [',', ' '] p.2, MatchType.csv⟩
    else none

/-- File metadata record, from `dbsearcher.types.FileInfo` (the path is
modelled by the entry name). -/
structure FileInfo where
  path : List Char
  name : List Char
  size_bytes : Nat
  match_type : MatchType
deriving DecidableEq

/-- One directory entry as seen by `FileIndexer.refresh`: its name, its
extension (`pathlib` suffix, with the dot), whether it is a regular file,
and the result of `stat` (`none` models an `OSError` from `stat`). -/
structure DirEntry where
  name : List Char
  suffix : List Char
  isFile : Bool
  statSize : Option Nat
deriving DecidableEq

/-- State of the base directory as observed by `FileIndexer.refresh`:
absent, existing but not a directory, failing at listing with an OS-level
error, or listable with the given entries. -/
inductive Dir where
  | missing
  | notDir
  | listingError
  | entries (es : List DirEntry)
deriving DecidableEq

/-- Indexer state: the name-keyed index (in dict insertion order) and the
staleness flag, from `FileIndexer.__slots__`. -/
structure IndexerState where
  index : List FileInfo
  is_stale : Bool
deriving DecidableEq

/-- Error kinds surfaced by `FileIndexer.refresh`: `ConfigurationError`
when the root exists but is not a directory, `FileAccessError` when the
directory listing itself raises an OS-level error. -/
inductive RefreshError where
  | config
  | fileAccess
deriving DecidableEq

/-- Python `str.lower` restricted to ASCII, as applied to extensions. -/
def lowerStr (cs : List Char) : List Char :=
  cs.map Char.toLower

/-- Embedding of `FileIndexer._get_match_type`: map a lowercased extension
to its match type, defaulting to TXT. -/
def getMatchType (ext : List Char) : MatchType :=
  if lowerStr ext = ['.', 'c', 's', 'v'] then MatchType.csv
  else if lowerStr ext = ['.', 't', 'x', 't'] then MatchType.txt
  else if lowerStr ext = ['.', 's', 'q', 'l'] then MatchType.sql
  else MatchType.txt

/-- Insert into the name-keyed index with Python dict semantics: an
existing key is overwritten in place, a new key is appended. -/
def indexInsert (fi : FileInfo) : List FileInfo → List FileInfo
  | [] => [fi]
  | g :: rest => if g.name = fi.name then fi :: rest else g :: indexInsert fi rest

/-- One step of the indexing loop of `FileIndexer.refresh`: skip non-file
entries, entries whose lowercased extension is not recognized, and entries
whose `stat` fails; otherwise insert a `FileInfo` built from the entry. -/
def refreshStep (exts : List (List Char)) (acc : List FileInfo) (e : DirEntry) :
    List FileInfo :=
  if e.isFile = false then acc
  else if lowerStr e.suffix ∈ exts then
    match e.statSize with
    | none => acc
    | some n => indexInsert ⟨e.name, e.name, n, getMatchType (lowerStr e.suffix)⟩ acc
  else acc

/-- Embedding of `FileIndexer.refresh`: clear the index, then return 0 on a
missing root (marking the index fresh), a `ConfigurationError` when the
root is not a directory, a `FileAccessError` when listing fails, and
otherwise fold the entries into a fresh index and return its size. -/
def refresh (d : Dir) (exts : List (List Char)) (s : IndexerState) :
    Except RefreshError Nat × IndexerState :=
  match d with
  | Dir.missing => (Except.ok 0, { index := [], is_stale := false })
  | Dir.notDir => (Except.error RefreshError.config, { s with index := [] })
  | Dir.listingError => (Except.error RefreshError.fileAccess, { s with index := [] })
  | Dir.entries es =>
    (Except.ok (es.foldl (refreshStep exts) []).length,
      { index := es.foldl (refreshStep exts) [], is_stale := false })

/-- One file as the engine sees it for a fixed query: the sequence of
results its parser yields before terminating, and whether the parser's
iteration terminates by raising (`fails = true`) rather than normally.
Results yielded before a failure have already been appended to `results`
inside `SearchEngine._search_file` when the handler catches the exception,
so they are kept; the flag therefore cannot change `_search_file`'s return
value, only the warning that is logged. -/
structure FileEntry (α : Type) where
  stream : List α
  fails : Bool
deriving DecidableEq

/-- Engine-owned mutable state: the indexed file list, the staleness flag
of the underlying `FileIndexer`, and the query-keyed result cache
(`_result_cache`), modelled as an association list whose first match wins,
matching dict lookup after `cache[key] = value` updates. -/
structure EngineState (α : Type) where
  files : List (FileEntry α)
  stale : Bool
  cache : List (List Char × List α)
deriving DecidableEq

/-- Filesystem environment for the engine: what a successful index refresh
would find, with each file's parse behaviour for the query under study. -/
structure Env (α : Type) where
  dirFiles : List (FileEntry α)
deriving DecidableEq

/-- Search statistics, from `dbsearcher.types.SearchStats`; the wall-clock
duration field is not modelled. -/
structure SearchStats where
  files_searched : Nat
  total_matches : Nat
deriving DecidableEq

/-- Outcome of a `search` call: a raised `SearchError` for an empty query,
or a result list with statistics. -/
inductive SearchOutcome (α : Type) where
  | err
  | ok (results : List α) (stats : SearchStats)
deriving DecidableEq

/-- Full effect of a `search` call: its outcome, the engine state after the
call, and a count of filesystem operations performed (index refreshes plus
per-file parser invocations). -/
structure SearchOut (α : Type) where
  outcome : SearchOutcome α
  state : EngineState α
  ops : Nat
deriving DecidableEq

/-- Result list of an outcome (`[]` for the error case). -/
def outcomeResults {α : Type} : SearchOutcome α → List α
  | SearchOutcome.err => []
  | SearchOutcome.ok r _ => r

/-- Lookup in the result cache by normalized query. -/
def cacheLookup {α : Type} (k : List Char) : List (List Char × List α) → Option (List α)
  | [] => none
  | p :: rest => if p.1 = k then some p.2 else cacheLookup k rest

/-- The accumulation loop of `SearchEngine._search_file`: append each
yielded result, breaking as soon as the accumulated count reaches
`max_results`. -/
def searchFileGo {α : Type} (maxR : Nat) : List α → List α → List α
  | acc, [] => acc
  | acc, r :: rest =>
    if maxR ≤ (acc ++ [r]).length then acc ++ [r]
    else searchFileGo maxR (acc ++ [r]) rest

/-- Embedding of `SearchEngine._search_file`: run the file's parser stream
through the capped accumulation loop.  When the stream ends because the
parser raises (`f.fails`), the handler catches the exception and the
already-accumulated `results` list is returned all the same, so the
returned value does not depend on the flag. -/
def searchFileRun {α : Type} (maxR : Nat) (f : FileEntry α) : List α :=
  searchFileGo maxR [] f.stream

/-- The per-file aggregation loop shared by `search` (index order) and
`search_parallel` (completion order): extend the accumulator with each
file's results and, as soon as the accumulated count reaches
`max_results`, truncate to exactly `max_results` and stop processing
further files.  The second component counts the files processed. -/
def engineGo {α : Type} (maxR : Nat) : List (FileEntry α) → List α → List α × Nat
  | [], acc => (acc, 0)
  | f :: rest, acc =>
    if maxR ≤ (acc ++ searchFileRun maxR f).length then
      ((acc ++ searchFileRun maxR f).take maxR, 1)
    else
      ((engineGo maxR rest (acc ++ searchFileRun maxR f)).1,
        (engineGo maxR rest (acc ++ searchFileRun maxR f)).2 + 1)

/-- Lazy refresh used by `FileIndexer.get_files` and `get_file_count`:
when the index is stale, rebuild it from the directory (one filesystem
operation) and clear the staleness flag; otherwise do nothing. -/
def refreshIfStale {α : Type} (env : Env α) (s : EngineState α) : EngineState α × Nat :=
  if s.stale then ({ s with files := env.dirFiles, stale := false }, 1) else (s, 0)

/-- Embedding of `SearchEngine.search`.  An empty or whitespace-only query
raises a `SearchError` before any filesystem access.  A query whose
stripped form is cached returns the cached list with statistics computed
against it and the current index file count (refreshing the index first
when stale, as `get_file_count` does).  Otherwise the indexed files are
scanned in index order through `engineGo`, the result is memoized under
the normalized query, and statistics report the number of indexed files
and the number of matches. -/
def search {α : Type} (maxR : Nat) (env : Env α) (s : EngineState α) (q : List Char) :
    SearchOut α :=
  if pyStrip q = [] then ⟨SearchOutcome.err, s, 0⟩
  else
    match cacheLookup (pyStrip q) s.cache with
    | some cached =>
      ⟨SearchOutcome.ok cached ⟨(refreshIfStale env s).1.files.length, cached.length⟩,
        (refreshIfStale env s).1, (refreshIfStale env s).2⟩
    | none =>
      ⟨SearchOutcome.ok (engineGo maxR (refreshIfStale env s).1.files []).1
          ⟨(refreshIfStale env s).1.files.length,
            (engineGo maxR (refreshIfStale env s).1.files []).1.length⟩,
        { (refreshIfStale env s).1 with
            cache := (pyStrip q, (engineGo maxR (refreshIfStale env s).1.files []).1)
              :: (refreshIfStale env s).1.cache },
        (refreshIfStale env s).2 + (engineGo maxR (refreshIfStale env s).1.files []).2⟩

/-- Embedding of `SearchEngine.search_parallel`.  Identical to `search`
except that completed per-file results arrive in scheduler-dependent
completion order, modelled by the explicit `order` list (theorems relate
it to the indexed files by permutation); statistics still report the
indexed file count.  The worker count only sizes the thread pool and has
no observable effect here. -/
def searchParallel {α : Type} (maxR : Nat) (env : Env α) (s : EngineState α)
    (q : List Char) (order : List (FileEntry α)) : SearchOut α :=
  if pyStrip q = [] then ⟨SearchOutcome.err, s, 0⟩
  else
    match cacheLookup (pyStrip q) s.cache with
    | some cached =>
      ⟨SearchOutcome.ok cached ⟨(refreshIfStale env s).1.files.length, cached.length⟩,
        (refreshIfStale env s).1, (refreshIfStale env s).2⟩
    | none =>
      ⟨SearchOutcome.ok (engineGo maxR order []).1
          ⟨(refreshIfStale env s).1.files.length, (engineGo maxR order []).1.length⟩,
        { (refreshIfStale env s).1 with
            cache := (pyStrip q, (engineGo maxR order []).1)
              :: (refreshIfStale env s).1.cache },
        (refreshIfStale env s).2 + (engineGo maxR order []).2⟩

/-- Embedding of `SearchEngine.clear_cache`: clear the result cache and
invalidate the index as one operation. -/
def clearCache {α : Type} (s : EngineState α) : EngineState α :=
  { s with cache := [], stale := true }

/-- Engine state at construction: empty index marked stale, empty cache. -/
def initState (α : Type) : EngineState α :=
  ⟨[], true, []⟩

/-- Well-formedness invariant of engine-reachable states: a non-empty
cache implies a fresh index (the only invalidation path, `clear_cache`,
also clears the cache), and every cache entry was stored by a successful
search, hence has a non-empty normalized key and at most `max_results`
results. -/
def EngineWF {α : Type} (maxR : Nat) (s : EngineState α) : Prop :=
  (s.cache ≠ [] → s.stale = false) ∧ ∀ p ∈ s.cache, p.1 ≠ [] ∧ p.2.length ≤ maxR

/-- Total number of results the files' parsers would yield. -/
def totalLen {α : Type} (fs : List (FileEntry α)) : Nat :=
  (fs.map (fun f => f.stream.length)).sum

/-- Total number of results the capped per-file scans yield. -/
def capSum {α : Type} (maxR : Nat) (fs : List (FileEntry α)) : Nat :=
  (fs.map (fun f => min maxR f.stream.length)).sum

/-! Helper lemmas about the line-reading pipeline. -/

theorem pyRstripRN_append_cr (l : List Char) :
    pyRstripRN (l ++ ['\r']) = pyRstripRN l := by
  simp [pyRstripRN, List.dropWhile_cons]

theorem splitNLAux_univNewlines :
    ∀ cs : List Char, noBareCR cs = true →
      ∀ acc : List Char,
        (splitNLAux acc (univNewlines cs)).map pyRstripRN
          = (splitNLAux acc cs).map pyRstripRN := by
  intro cs
  induction cs using univNewlines.induct with
  | case1 =>
    intro _ acc
    rfl
  | case2 =>
    intro h acc
    simp [noBareCR] at h
  | case3 c hc =>
    intro _ acc
    simp [univNewlines, hc]
  | case4 rest ih =>
    intro h acc
    have h' : noBareCR rest = true := by simpa [noBareCR] using h
    simp [univNewlines, splitNLAux, pyRstripRN_append_cr, ih h']
  | case5 d rest hd ih =>
    intro h acc
    simp [noBareCR, hd] at h
  | case6 c d rest hc ih =>
    intro h acc
    have h' : noBareCR (d :: rest) = true := by simpa [noBareCR, hc] using h
    by_cases hn : c = '\n'
    · subst hn
      simp [univNewlines, splitNLAux, hc, ih h']
    · simp [univNewlines, splitNLAux, hc, hn, ih h']

theorem readFile_strategies_agree (content : List Char)
    (h : noBareCR content = true) :
    readFileMmap content = readFileStandard content := by
  unfold readFileMmap readFileStandard splitNL
  rw [splitNLAux_univNewlines content h []]

theorem univNewlines_id :
    ∀ cs : List Char, (∀ c ∈ cs, c ≠ '\r') → univNewlines cs = cs := by
  intro cs
  induction cs using univNewlines.induct with
  | case1 => intro _; rfl
  | case2 =>
    intro h
    exact absurd rfl (h '\r' (by simp))
  | case3 c hc =>
    intro _
    simp [univNewlines, hc]
  | case4 rest ih =>
    intro h
    exact absurd rfl (h '\r' (by simp))
  | case5 d rest hd ih =>
    intro h
    exact absurd rfl (h '\r' (by simp))
  | case6 c d rest hc ih =>
    intro h
    rw [univNewlines, if_neg hc, ih (fun x hx => h x (List.mem_cons_of_mem c hx))]

theorem dropWhile_eq_self_of_forall {p : Char → Bool} :
    ∀ l : List Char, (∀ c ∈ l, p c = false) → l.dropWhile p = l := by
  intro l h
  cases l with
  | nil => rfl
  | cons c t =>
    rw [List.dropWhile_cons, if_neg (by simp [h c (by simp)])]

theorem pyRstripRN_id (l : List Char)
    (h : ∀ c ∈ l, c ≠ '\n' ∧ c ≠ '\r') : pyRstripRN l = l := by
  unfold pyRstripRN
  rw [dropWhile_eq_self_of_forall l.reverse ?_, List.reverse_reverse]
  intro c hc
  have := h c (List.mem_reverse.mp hc)
  simp [this.1, this.2]

theorem splitNLAux_no_newline :
    ∀ (line acc : List Char), (∀ c ∈ line, c ≠ '\n') →
      splitNLAux acc line
        = if (acc.reverse ++ line).isEmpty then [] else [acc.reverse ++ line] := by
  intro line
  induction line with
  | nil =>
    intro acc _
    simp [splitNLAux]
  | cons c t ih =>
    intro acc h
    rw [splitNLAux, if_neg (h c (by simp))]
    rw [ih (c :: acc) (fun x hx => h x (List.mem_cons_of_mem c hx))]
    simp

theorem readLines_single (line : List Char) (hne : line ≠ [])
    (h : ∀ c ∈ line, c ≠ '\n' ∧ c ≠ '\r') :
    ∀ sizeBytes threshold : Nat,
      readLines sizeBytes threshold line = [(1, line)] := by
  have hsplit : splitNL line = [line] := by
    unfold splitNL
    rw [splitNLAux_no_newline line [] (fun c hc => (h c hc).1)]
    simp [hne]
  have hmm : readFileMmap line = [(1, line)] := by
    unfold readFileMmap
    rw [hsplit]
    simp [numberFrom, pyRstripRN_id line h]
  have hstd : readFileStandard line = [(1, line)] := by
    unfold readFileStandard
    rw [univNewlines_id line (fun c hc => (h c hc).2), hsplit]
    simp [numberFrom, pyRstripRN_id line h]
  intro sizeBytes threshold
  unfold readLines
  rw [hmm, hstd]
  simp

theorem numberFrom_mem {α : Type} :
    ∀ (l : List α) (n : Nat) (p : Nat × α), p ∈ numberFrom n l → p.2 ∈ l := by
  intro l
  induction l with
  | nil => intro n p hp; simp [numberFrom] at hp
  | cons a t ih =>
    intro n p hp
    rw [numberFrom] at hp
    rcases List.mem_cons.mp hp with h | h
    · subst h; simp
    · exact List.mem_cons_of_mem a (ih (n + 1) p h)

/-! Helper lemmas about the engine loops and state. -/

theorem searchFileGo_eq {α : Type} (maxR : Nat) :
    ∀ (s acc : List α), acc.length < maxR →
      searchFileGo maxR acc s = acc ++ s.take (maxR - acc.length) := by
  intro s
  induction s with
  | nil =>
    intro acc _
    simp [searchFileGo]
  | cons r rest ih =>
    intro acc h
    rw [searchFileGo]
    by_cases hc : maxR ≤ (acc ++ [r]).length
    · rw [if_pos hc]
      have h1 : maxR - acc.length = 1 := by
        simp only [List.length_append, List.length_cons, List.length_nil] at hc
        omega
      rw [h1, List.take_succ_cons, List.take_zero]
    · rw [if_neg hc]
      rw [ih (acc ++ [r]) (by simp only [List.length_append] at hc ⊢; omega)]
      obtain ⟨k, hk⟩ : ∃ k, maxR - acc.length = k + 1 := ⟨maxR - acc.length - 1, by omega⟩
      have h2 : maxR - (acc ++ [r]).length = k := by
        simp only [List.length_append, List.length_cons, List.length_nil]
        omega
      rw [h2, hk, List.take_succ_cons, List.append_assoc, List.singleton_append]

theorem searchFileRun_eq_take {α : Type} (maxR : Nat) (f : FileEntry α)
    (h : 1 ≤ maxR) : searchFileRun maxR f = f.stream.take maxR := by
  unfold searchFileRun
  rw [searchFileGo_eq maxR f.stream [] (by simpa using h)]
  simp

theorem engineGo_length_le {α : Type} (maxR : Nat) :
    ∀ (fs : List (FileEntry α)) (acc : List α), acc.length ≤ maxR →
      (engineGo maxR fs acc).1.length ≤ maxR := by
  intro fs
  induction fs with
  | nil =>
    intro acc h
    simpa [engineGo] using h
  | cons f rest ih =>
    intro acc h
    rw [engineGo]
    by_cases hc : maxR ≤ (acc ++ searchFileRun maxR f).length
    · rw [if_pos hc]
      simp [List.length_take]
    · rw [if_neg hc]
      exact ih (acc ++ searchFileRun maxR f) (by omega)

theorem totalLen_cons {α : Type} (f : FileEntry α) (rest : List (FileEntry α)) :
    totalLen (f :: rest) = f.stream.length + totalLen rest := by
  simp [totalLen]

theorem capSum_cons {α : Type} (maxR : Nat) (f : FileEntry α)
    (rest : List (FileEntry α)) :
    capSum maxR (f :: rest) = min maxR f.stream.length + capSum maxR rest := by
  simp [capSum]

theorem engineGo_reaches_cap {α : Type} (maxR : Nat) (h1 : 1 ≤ maxR) :
    ∀ (fs : List (FileEntry α)) (acc : List α), acc.length < maxR →
      maxR ≤ acc.length + totalLen fs →
      (engineGo maxR fs acc).1.length = maxR := by
  intro fs
  induction fs with
  | nil =>
    intro acc ha h
    rw [totalLen] at h
    simp at h
    omega
  | cons f rest ih =>
    intro acc ha h
    rw [engineGo, searchFileRun_eq_take maxR f h1]
    by_cases hc : maxR ≤ (acc ++ f.stream.take maxR).length
    · rw [if_pos hc]
      simp only [List.length_take, List.length_append] at hc ⊢
      omega
    · rw [if_neg hc]
      rw [totalLen_cons] at h
      simp only [List.length_append, List.length_take] at hc
      apply ih (acc ++ f.stream.take maxR)
      · simp only [List.length_append, List.length_take]
        omega
      · simp only [List.length_append, List.length_take]
        omega

theorem engineGo_no_cap {α : Type} (maxR : Nat) :
    ∀ (fs : List (FileEntry α)) (acc : List α),
      acc.length + totalLen fs < maxR →
      engineGo maxR fs acc
        = (acc ++ (fs.map (fun f => f.stream)).flatten, fs.length) := by
  intro fs
  induction fs with
  | nil =>
    intro acc _
    simp [engineGo]
  | cons f rest ih =>
    intro acc h
    rw [totalLen_cons] at h
    have h1 : 1 ≤ maxR := by omega
    have hlen : f.stream.length ≤ maxR := by omega
    rw [engineGo, searchFileRun_eq_take maxR f h1, List.take_of_length_le hlen]
    rw [if_neg (by simp only [List.length_append]; omega)]
    rw [ih (acc ++ f.stream) (by simp only [List.length_append]; omega)]
    simp [List.append_assoc]

theorem engineGo_all_nil {α : Type} (maxR : Nat) :
    ∀ fs : List (FileEntry α), (∀ f ∈ fs, f.stream = []) →
      (engineGo maxR fs ([] : List α)).1 = [] := by
  intro fs
  induction fs with
  | nil => simp [engineGo]
  | cons f rest ih =>
    intro h
    have hf : f.stream = [] := h f (by simp)
    have hrun : searchFileRun maxR f = [] := by
      unfold searchFileRun
      rw [hf]
      rfl
    rw [engineGo, hrun]
    by_cases hc : maxR ≤ ([] ++ ([] : List α)).length
    · rw [if_pos hc]
      simp
    · rw [if_neg hc]
      simpa using ih (fun g hg => h g (List.mem_cons_of_mem f hg))

theorem engineGo_nproc_le {α : Type} (maxR : Nat) :
    ∀ (fs : List (FileEntry α)) (acc : List α) (k : Nat), acc.length < maxR →
      maxR ≤ acc.length + capSum maxR (fs.take k) →
      (engineGo maxR fs acc).2 ≤ k := by
  intro fs
  induction fs with
  | nil =>
    intro acc k _ _
    simp [engineGo]
  | cons f rest ih =>
    intro acc k ha h
    have h1 : 1 ≤ maxR := by omega
    cases k with
    | zero =>
      rw [List.take_zero, capSum] at h
      simp at h
      omega
    | succ k =>
      rw [List.take_succ_cons, capSum_cons] at h
      rw [engineGo, searchFileRun_eq_take maxR f h1]
      by_cases hc : maxR ≤ (acc ++ f.stream.take maxR).length
      · rw [if_pos hc]
        omega
      · rw [if_neg hc]
        simp only []
        have := ih (acc ++ f.stream.take maxR) k
          (by simp only [List.length_append] at hc ⊢; omega)
          (by simp only [List.length_append, List.length_take] at hc ⊢; omega)
        omega

theorem cacheLookup_mem {α : Type} (k : List Char) :
    ∀ (l : List (List Char × List α)) (v : List α),
      cacheLookup k l = some v → (k, v) ∈ l := by
  intro l
  induction l with
  | nil =>
    intro v hv
    simp [cacheLookup] at hv
  | cons p rest ih =>
    intro v hv
    rw [cacheLookup] at hv
    by_cases hp : p.1 = k
    · rw [if_pos hp] at hv
      have : v = p.2 := by simpa using hv.symm
      subst this
      rw [← hp]
      simp
    · rw [if_neg hp] at hv
      exact List.mem_cons_of_mem p (ih v hv)

theorem cacheLookup_ne_nil {α : Type} (k : List Char)
    (l : List (List Char × List α)) (v : List α)
    (h : cacheLookup k l = some v) : l ≠ [] := by
  intro hl
  subst hl
  simp [cacheLookup] at h

theorem refreshIfStale_cache {α : Type} (env : Env α) (s : EngineState α) :
    (refreshIfStale env s).1.cache = s.cache := by
  unfold refreshIfStale
  by_cases h : s.stale = true
  · rw [if_pos h]
  · rw [if_neg h]

theorem refreshIfStale_stale {α : Type} (env : Env α) (s : EngineState α) :
    (refreshIfStale env s).1.stale = false := by
  unfold refreshIfStale
  by_cases h : s.stale = true
  · rw [if_pos h]
  · rw [if_neg h]
    simpa using h

theorem refreshIfStale_of_fresh {α : Type} (env : Env α) (s : EngineState α)
    (h : s.stale = false) : refreshIfStale env s = (s, 0) := by
  unfold refreshIfStale
  rw [if_neg (by simp [h])]

theorem search_cache_hit {α : Type} (maxR : Nat) (env : Env α) (s : EngineState α)
    (q : List Char) (rs : List α) (hq : pyStrip q ≠ [])
    (hcl : cacheLookup (pyStrip q) s.cache = some rs) :
    search maxR env s q
      = ⟨SearchOutcome.ok rs ⟨(refreshIfStale env s).1.files.length, rs.length⟩,
          (refreshIfStale env s).1, (refreshIfStale env s).2⟩ := by
  unfold search
  rw [if_neg hq, hcl]

theorem search_cache_miss {α : Type} (maxR : Nat) (env : Env α) (s : EngineState α)
    (q : List Char) (hq : pyStrip q ≠ [])
    (hcl : cacheLookup (pyStrip q) s.cache = none) :
    search maxR env s q
      = ⟨SearchOutcome.ok (engineGo maxR (refreshIfStale env s).1.files []).1
            ⟨(refreshIfStale env s).1.files.length,
              (engineGo maxR (refreshIfStale env s).1.files []).1.length⟩,
          { (refreshIfStale env s).1 with
              cache := (pyStrip q, (engineGo maxR (refreshIfStale env s).1.files []).1)
                :: (refreshIfStale env s).1.cache },
          (refreshIfStale env s).2 + (engineGo maxR (refreshIfStale env s).1.files []).2⟩ := by
  unfold search
  rw [if_neg hq, hcl]

theorem parallel_cache_hit {α : Type} (maxR : Nat) (env : Env α) (s : EngineState α)
    (q : List Char) (order : List (FileEntry α)) (rs : List α) (hq : pyStrip q ≠ [])
    (hcl : cacheLookup (pyStrip q) s.cache = some rs) :
    searchParallel maxR env s q order
      = ⟨SearchOutcome.ok rs ⟨(refreshIfStale env s).1.files.length, rs.length⟩,
          (refreshIfStale env s).1, (refreshIfStale env s).2⟩ := by
  unfold searchParallel
  rw [if_neg hq, hcl]

theorem parallel_cache_miss {α : Type} (maxR : Nat) (env : Env α) (s : EngineState α)
    (q : List Char) (order : List (FileEntry α)) (hq : pyStrip q ≠ [])
    (hcl : cacheLookup (pyStrip q) s.cache = none) :
    searchParallel maxR env s q order
      = ⟨SearchOutcome.ok (engineGo maxR order []).1
            ⟨(refreshIfStale env s).1.files.length, (engineGo maxR order []).1.length⟩,
          { (refreshIfStale env s).1 with
              cache := (pyStrip q, (engineGo maxR order []).1)
                :: (refreshIfStale env s).1.cache },
          (refreshIfStale env s).2 + (engineGo maxR order []).2⟩ := by
  unfold searchParallel
  rw [if_neg hq, hcl]

theorem engineWF_initState {α : Type} (maxR : Nat) : EngineWF maxR (initState α) :=
  ⟨fun h => absurd rfl h, by simp [initState]⟩

theorem engineWF_clearCache {α : Type} (maxR : Nat) (s : EngineState α) :
    EngineWF maxR (clearCache s) :=
  ⟨fun h => absurd rfl h, by simp [clearCache]⟩

theorem engineWF_search {α : Type} (maxR : Nat) (env : Env α) (s : EngineState α)
    (q : List Char) (h : EngineWF maxR s) :
    EngineWF maxR (search maxR env s q).state := by
  by_cases hq : pyStrip q = []
  · unfold search
    rw [if_pos hq]
    exact h
  · cases hcl : cacheLookup (pyStrip q) s.cache with
    | some cached =>
      rw [search_cache_hit maxR env s q cached hq hcl]
      exact ⟨fun _ => refreshIfStale_stale env s,
        by rw [refreshIfStale_cache]; exact h.2⟩
    | none =>
      rw [search_cache_miss maxR env s q hq hcl]
      refine ⟨fun _ => refreshIfStale_stale env s, ?_⟩
      intro p hp
      rcases List.mem_cons.mp (by simpa [refreshIfStale_cache] using hp) with hnew | hold
      · subst hnew
        exact ⟨hq, engineGo_length_le maxR _ [] (Nat.zero_le maxR)⟩
      · exact h.2 p hold

theorem engineWF_searchParallel {α : Type} (maxR : Nat) (env : Env α)
    (s : EngineState α) (q : List Char) (order : List (FileEntry α))
    (h : EngineWF maxR s) :
    EngineWF maxR (searchParallel maxR env s q order).state := by
  by_cases hq : pyStrip q = []
  · unfold searchParallel
    rw [if_pos hq]
    exact h
  · cases hcl : cacheLookup (pyStrip q) s.cache with
    | some cached =>
      rw [parallel_cache_hit maxR env s q order cached hq hcl]
      exact ⟨fun _ => refreshIfStale_stale env s,
        by rw [refreshIfStale_cache]; exact h.2⟩
    | none =>
      rw [parallel_cache_miss maxR env s q order hq hcl]
      refine ⟨fun _ => refreshIfStale_stale env s, ?_⟩
      intro p hp
      rcases List.mem_cons.mp (by simpa [refreshIfStale_cache] using hp) with hnew | hold
      · subst hnew
        exact ⟨hq, engineGo_length_le maxR _ [] (Nat.zero_le maxR)⟩
      · exact h.2 p hold

/-! Claim theorems. -/

/-- C3 counterexample: the claim that the memory-mapped and buffered read
strategies yield exactly the same sequence of numbered lines for every
file fails on content with a bare carriage return.  On the four characters
x, carriage return, a, line feed the mmap strategy yields one line while
the buffered text-mode strategy, which honours universal newlines, yields
two. -/
theorem c3_counterexample :
    readFileMmap ['x', '\r', 'a', '\n'] ≠ readFileStandard ['x', '\r', 'a', '\n'] := by
  decide

/-- C3 (amended): for every file in which each carriage return is
immediately followed by a line feed, the memory-mapped and the buffered
standard read strategies yield exactly the same sequence of
(record number, content) pairs, and consequently `TextParser.parse` output
is independent of the file-size/threshold strategy selection — in
particular a single matching line is reported identically by both. -/
theorem c3_read_strategy_equivalence (content : List Char)
    (h : noBareCR content = true) :
    readFileMmap content = readFileStandard content
    ∧ ∀ (fold : Char → List Char) (caseS : Bool) (query fn fp : List Char)
        (sz1 th1 sz2 th2 : Nat),
        textParse fold caseS query fn fp sz1 th1 content
          = textParse fold caseS query fn fp sz2 th2 content := by
  have hl := readFile_strategies_agree content h
  refine ⟨hl, ?_⟩
  intro fold caseS query fn fp sz1 th1 sz2 th2
  unfold textParse readLines
  split_ifs <;> first | rfl | rw [hl]

/-- Witness for C3: a concrete CRLF-terminated file on which the amended
equivalence applies. -/
theorem c3_read_strategy_equivalence_witness :
    noBareCR ['a', '\r', '\n', 'b'] = true
    ∧ readFileMmap ['a', '\r', '\n', 'b'] = readFileStandard ['a', '\r', '\n', 'b'] :=
  ⟨by decide, (c3_read_strategy_equivalence ['a', '\r', '\n', 'b'] (by decide)).1⟩

/-- C4: a query that is empty or whitespace-only makes both `search` and
`search_parallel` raise a `SearchError` before any filesystem operation:
the outcome is the error, the engine state is returned unchanged, and the
operation counter is zero. -/
theorem c4_empty_query_fails_fast {α : Type} (maxR : Nat) (env : Env α)
    (s : EngineState α) (q : List Char) (order : List (FileEntry α))
    (hq : pyStrip q = []) :
    search maxR env s q = ⟨SearchOutcome.err, s, 0⟩
    ∧ searchParallel maxR env s q order = ⟨SearchOutcome.err, s, 0⟩ := by
  unfold search searchParallel
  rw [if_pos hq, if_pos hq]
  exact ⟨rfl, rfl⟩

/-- Witness for C4 at a whitespace-only query. -/
theorem c4_empty_query_fails_fast_witness :
    search 5 (⟨[]⟩ : Env Nat) (initState Nat) [' ', '\t']
      = ⟨SearchOutcome.err, initState Nat, 0⟩
    ∧ searchParallel 5 (⟨[]⟩ : Env Nat) (initState Nat) [' ', '\t'] []
      = ⟨SearchOutcome.err, initState Nat, 0⟩ :=
  c4_empty_query_fails_fast 5 ⟨[]⟩ (initState Nat) [' ', '\t'] [] (by decide)

/-- C2: on any engine-reachable state (well-formedness invariant), a query
whose normalized form is cached is answered entirely from the cache: the
cached sequence is returned with statistics computed against it and the
current index file count, the engine state is unchanged, and no filesystem
or parser operation is performed. -/
theorem c2_cache_hit_is_pure {α : Type} (maxR : Nat) (env : Env α)
    (s : EngineState α) (q : List Char) (rs : List α) (hwf : EngineWF maxR s)
    (hc : cacheLookup (pyStrip q) s.cache = some rs) :
    search maxR env s q
      = ⟨SearchOutcome.ok rs ⟨s.files.length, rs.length⟩, s, 0⟩ := by
  have hmem := cacheLookup_mem (pyStrip q) s.cache rs hc
  have hq : pyStrip q ≠ [] := (hwf.2 _ hmem).1
  have hstale : s.stale = false := hwf.1 (cacheLookup_ne_nil _ s.cache rs hc)
  rw [search_cache_hit maxR env s q rs hq hc, refreshIfStale_of_fresh env s hstale]

/-- Witness for C2 on a concrete cached state. -/
theorem c2_cache_hit_is_pure_witness :
    search 3 (⟨[]⟩ : Env Nat) ⟨[], false, [(['a'], [5])]⟩ ['a']
      = ⟨SearchOutcome.ok [5] ⟨0, 1⟩, ⟨[], false, [(['a'], [5])]⟩, 0⟩ :=
  c2_cache_hit_is_pure 3 ⟨[]⟩ ⟨[], false, [(['a'], [5])]⟩ ['a'] [5]
    ⟨fun _ => rfl, by decide⟩ (by decide)

/-- C6: calling `search` twice in succession with the same valid query and
no intervening cache clear or invalidation yields the same result sequence
both times; after the first call the normalized query is cached with
exactly that sequence, and the second call is a pure cache read that
leaves the state unchanged and performs no filesystem operation. -/
theorem c6_search_idempotent {α : Type} (maxR : Nat) (env : Env α)
    (s : EngineState α) (q : List Char) (hq : pyStrip q ≠ []) :
    ∃ (r1 : List α) (st1 st2 : SearchStats),
      (search maxR env s q).outcome = SearchOutcome.ok r1 st1
      ∧ cacheLookup (pyStrip q) (search maxR env s q).state.cache = some r1
      ∧ search maxR env (search maxR env s q).state q
          = ⟨SearchOutcome.ok r1 st2, (search maxR env s q).state, 0⟩ := by
  cases hcl : cacheLookup (pyStrip q) s.cache with
  | some cached =>
    have h1 := search_cache_hit maxR env s q cached hq hcl
    have hstale1 : (search maxR env s q).state.stale = false := by
      rw [h1]
      exact refreshIfStale_stale env s
    have hcache1 : cacheLookup (pyStrip q) (search maxR env s q).state.cache
        = some cached := by
      rw [h1]
      rw [refreshIfStale_cache]
      exact hcl
    have h2 := search_cache_hit maxR env (search maxR env s q).state q cached hq hcache1
    rw [refreshIfStale_of_fresh env _ hstale1] at h2
    refine ⟨cached, ⟨(refreshIfStale env s).1.files.length, cached.length⟩, _,
      ?_, hcache1, h2⟩
    rw [h1]
  | none =>
    have h1 := search_cache_miss maxR env s q hq hcl
    have hstale1 : (search maxR env s q).state.stale = false := by
      rw [h1]
      exact refreshIfStale_stale env s
    have hcache1 : cacheLookup (pyStrip q) (search maxR env s q).state.cache
        = some (engineGo maxR (refreshIfStale env s).1.files []).1 := by
      rw [h1]
      show cacheLookup (pyStrip q)
        ((pyStrip q, (engineGo maxR (refreshIfStale env s).1.files []).1)
          :: (refreshIfStale env s).1.cache) = _
      rw [cacheLookup, if_pos rfl]
    have h2 := search_cache_hit maxR env (search maxR env s q).state q _ hq hcache1
    rw [refreshIfStale_of_fresh env _ hstale1] at h2
    refine ⟨(engineGo maxR (refreshIfStale env s).1.files []).1,
      ⟨(refreshIfStale env s).1.files.length,
        (engineGo maxR (refreshIfStale env s).1.files []).1.length⟩, _,
      ?_, hcache1, h2⟩
    rw [h1]

/-- Witness for C6 on a concrete fresh engine over one file. -/
theorem c6_search_idempotent_witness :
    ∃ (r1 : List Nat) (st1 st2 : SearchStats),
      (search 4 (⟨[⟨[3], false⟩]⟩ : Env Nat) (initState Nat) ['a']).outcome
        = SearchOutcome.ok r1 st1
      ∧ cacheLookup (pyStrip ['a'])
          (search 4 (⟨[⟨[3], false⟩]⟩ : Env Nat) (initState Nat) ['a']).state.cache
          = some r1
      ∧ search 4 (⟨[⟨[3], false⟩]⟩ : Env Nat)
            (search 4 (⟨[⟨[3], false⟩]⟩ : Env Nat) (initState Nat) ['a']).state ['a']
          = ⟨SearchOutcome.ok r1 st2,
              (search 4 (⟨[⟨[3], false⟩]⟩ : Env Nat) (initState Nat) ['a']).state, 0⟩ :=
  c6_search_idempotent 4 ⟨[⟨[3], false⟩]⟩ (initState Nat) ['a'] (by decide)

/-- C5 counterexample: the claim that a file on which the parser fails
contributes exactly zero matches is false.  Results are appended inside
`_search_file` as the parser yields them; when the parser raises only
after yielding (here a one-match stream whose iteration then fails,
`fails = true`), the handler catches the exception and the accumulated
match is returned and reaches the final result list. -/
theorem c5_counterexample :
    (⟨[7], true⟩ : FileEntry Nat).fails = true
    ∧ (search 10 (⟨[⟨[7], true⟩]⟩ : Env Nat) (initState Nat) ['a']).outcome
        = SearchOutcome.ok [7] ⟨1, 1⟩
    ∧ ¬ (search 10 (⟨[⟨[7], true⟩]⟩ : Env Nat) (initState Nat) ['a']).outcome
        = SearchOutcome.ok [] ⟨1, 0⟩ := by
  decide

/-- C5 (amended): per-file parser or file-access failures are caught and
never abort a multi-file search — for every valid query the search
completes with a result rather than raising, whatever the per-file failure
flags; a failing file contributes exactly the matches it yielded before
failing (zero when it fails before yielding, e.g. at open); and a fresh
search over files that all fail before yielding anything returns an empty
result with statistics counting the files scanned. -/
theorem c5_failure_isolation {α : Type} (maxR : Nat) (env : Env α)
    (s : EngineState α) (q : List Char) (hq : pyStrip q ≠ []) :
    (∃ (r : List α) (st : SearchStats),
        (search maxR env s q).outcome = SearchOutcome.ok r st)
    ∧ (cacheLookup (pyStrip q) s.cache = none →
        (∀ f ∈ (refreshIfStale env s).1.files, f.stream = []) →
        (search maxR env s q).outcome
          = SearchOutcome.ok [] ⟨(refreshIfStale env s).1.files.length, 0⟩) := by
  generalize hcl : cacheLookup (pyStrip q) s.cache = copt
  cases copt with
  | some cached =>
    rw [search_cache_hit maxR env s q cached hq hcl]
    exact ⟨⟨cached, _, rfl⟩, fun hnone => by cases hnone⟩
  | none =>
    rw [search_cache_miss maxR env s q hq hcl]
    refine ⟨⟨_, _, rfl⟩, fun _ hall => ?_⟩
    have hres := engineGo_all_nil maxR (refreshIfStale env s).1.files hall
    simp only [hres, List.length_nil]

/-- Witness for C5 (amended) on two files that both fail at open. -/
theorem c5_failure_isolation_witness :
    (search 5 (⟨[⟨[], true⟩, ⟨[], true⟩]⟩ : Env Nat) (initState Nat) ['a']).outcome
      = SearchOutcome.ok [] ⟨2, 0⟩ :=
  (c5_failure_isolation 5 ⟨[⟨[], true⟩, ⟨[], true⟩]⟩ (initState Nat) ['a']
      (by decide)).2 (by decide) (by decide)

/-- C1: with a valid query and a well-formed state, both `search` and
`search_parallel` return at most `max_results` results; moreover on a
fresh (uncached) run, if the files hold at least `max_results` matches in
total the result is truncated to exactly `max_results`, and once the
capped per-file contributions of the first `k` files reach `max_results`
no more than `k` files are processed. -/
theorem c1_max_results_cap {α : Type} (maxR : Nat) (env : Env α)
    (s : EngineState α) (q : List Char) (order : List (FileEntry α))
    (hwf : EngineWF maxR s) (hq : pyStrip q ≠ []) (h1 : 1 ≤ maxR) :
    (outcomeResults (search maxR env s q).outcome).length ≤ maxR
    ∧ (outcomeResults (searchParallel maxR env s q order).outcome).length ≤ maxR
    ∧ (cacheLookup (pyStrip q) s.cache = none →
        (maxR ≤ totalLen (refreshIfStale env s).1.files →
          (outcomeResults (search maxR env s q).outcome).length = maxR)
        ∧ ∀ k, maxR ≤ capSum maxR ((refreshIfStale env s).1.files.take k) →
            (engineGo maxR (refreshIfStale env s).1.files ([] : List α)).2 ≤ k) := by
  generalize hcl : cacheLookup (pyStrip q) s.cache = copt
  cases copt with
  | some cached =>
    have hb : cached.length ≤ maxR :=
      (hwf.2 _ (cacheLookup_mem (pyStrip q) s.cache cached hcl)).2
    rw [search_cache_hit maxR env s q cached hq hcl,
      parallel_cache_hit maxR env s q order cached hq hcl]
    exact ⟨hb, hb, fun hnone => by cases hnone⟩
  | none =>
    rw [search_cache_miss maxR env s q hq hcl,
      parallel_cache_miss maxR env s q order hq hcl]
    refine ⟨engineGo_length_le maxR _ [] (Nat.zero_le maxR),
      engineGo_length_le maxR _ [] (Nat.zero_le maxR), fun _ => ⟨?_, ?_⟩⟩
    · intro hcap
      exact engineGo_reaches_cap maxR h1 _ [] (by simpa using h1) (by simpa using hcap)
    · intro k hk
      exact engineGo_nproc_le maxR _ [] k (by simpa using h1) (by simpa using hk)

/-- Witness for C1 on a fresh engine over a three-match file with cap 2. -/
theorem c1_max_results_cap_witness :
    (outcomeResults (search 2 (⟨[⟨[1, 2, 3], false⟩]⟩ : Env Nat)
        (initState Nat) ['a']).outcome).length ≤ 2
    ∧ (outcomeResults (searchParallel 2 (⟨[⟨[1, 2, 3], false⟩]⟩ : Env Nat)
        (initState Nat) ['a'] [⟨[1, 2, 3], false⟩]).outcome).length ≤ 2
    ∧ (cacheLookup (pyStrip ['a']) (initState Nat).cache = none →
        (2 ≤ totalLen (refreshIfStale (⟨[⟨[1, 2, 3], false⟩]⟩ : Env Nat)
            (initState Nat)).1.files →
          (outcomeResults (search 2 (⟨[⟨[1, 2, 3], false⟩]⟩ : Env Nat)
              (initState Nat) ['a']).outcome).length = 2)
        ∧ ∀ k, 2 ≤ capSum 2 ((refreshIfStale (⟨[⟨[1, 2, 3], false⟩]⟩ : Env Nat)
              (initState Nat)).1.files.take k) →
            (engineGo 2 (refreshIfStale (⟨[⟨[1, 2, 3], false⟩]⟩ : Env Nat)
                (initState Nat)).1.files ([] : List Nat)).2 ≤ k) :=
  c1_max_results_cap 2 ⟨[⟨[1, 2, 3], false⟩]⟩ (initState Nat) ['a']
    [⟨[1, 2, 3], false⟩] ⟨fun h => absurd rfl h, by simp [initState]⟩
    (by decide) (by decide)

/-- C8: for a fixed file set and a fresh valid query whose total match
count across all files is below `max_results`, the sequential search and
the parallel search (its per-file results arriving in any completion
order, a permutation of the indexed files) both succeed and return the
same matches as an unordered collection: the two result lists are
permutations of each other. -/
theorem c8_parallel_same_matches {α : Type} (maxR : Nat) (env : Env α)
    (s : EngineState α) (q : List Char) (order : List (FileEntry α))
    (hq : pyStrip q ≠ [])
    (hmiss : cacheLookup (pyStrip q) s.cache = none)
    (hperm : order.Perm (refreshIfStale env s).1.files)
    (hlt : totalLen (refreshIfStale env s).1.files < maxR) :
    ∃ (r1 : List α) (st1 : SearchStats) (r2 : List α) (st2 : SearchStats),
      (search maxR env s q).outcome = SearchOutcome.ok r1 st1
      ∧ (searchParallel maxR env s q order).outcome = SearchOutcome.ok r2 st2
      ∧ r2.Perm r1 := by
  rw [search_cache_miss maxR env s q hq hmiss,
    parallel_cache_miss maxR env s q order hq hmiss]
  have hltO : totalLen order < maxR := by
    unfold totalLen
    rw [(hperm.map (fun f => f.stream.length)).sum_eq]
    exact hlt
  rw [engineGo_no_cap maxR (refreshIfStale env s).1.files [] (by simpa using hlt),
    engineGo_no_cap maxR order [] (by simpa using hltO)]
  exact ⟨_, _, _, _, rfl, rfl, by simpa using (hperm.map (fun f => f.stream)).flatten⟩

/-- Witness for C8: two files scanned in reversed completion order. -/
theorem c8_parallel_same_matches_witness :
    ∃ (r1 : List Nat) (st1 : SearchStats) (r2 : List Nat) (st2 : SearchStats),
      (search 10 (⟨[⟨[1], false⟩, ⟨[2, 3], false⟩]⟩ : Env Nat)
          (initState Nat) ['a']).outcome = SearchOutcome.ok r1 st1
      ∧ (searchParallel 10 (⟨[⟨[1], false⟩, ⟨[2, 3], false⟩]⟩ : Env Nat)
          (initState Nat) ['a']
          [⟨[2, 3], false⟩, ⟨[1], false⟩]).outcome = SearchOutcome.ok r2 st2
      ∧ r2.Perm r1 :=
  c8_parallel_same_matches 10 ⟨[⟨[1], false⟩, ⟨[2, 3], false⟩]⟩ (initState Nat)
    ['a'] [⟨[2, 3], false⟩, ⟨[1], false⟩] (by decide) (by decide)
    (by decide) (by decide)

/-- C9: `refresh` raises a `ConfigurationError` when the root exists but is
not a directory, raises a `FileAccessError` when listing the directory
fails with an OS-level error, succeeds with 0 and an empty non-stale index
when the root does not exist, never fails on a listable directory whatever
the entries (leaving the index non-stale), and an entry whose `stat` fails
is skipped without failing the refresh. -/
theorem c9_refresh_error_handling (exts : List (List Char)) (s : IndexerState)
    (e : DirEntry) (hstat : e.statSize = none) :
    (refresh Dir.notDir exts s).1 = Except.error RefreshError.config
    ∧ (refresh Dir.listingError exts s).1 = Except.error RefreshError.fileAccess
    ∧ refresh Dir.missing exts s = (Except.ok 0, ⟨[], false⟩)
    ∧ (∀ es, ∃ (n : Nat) (st : IndexerState),
        refresh (Dir.entries es) exts s = (Except.ok n, st) ∧ st.is_stale = false)
    ∧ refresh (Dir.entries [e]) exts s = (Except.ok 0, ⟨[], false⟩) := by
  refine ⟨rfl, rfl, rfl, fun es => ⟨_, _, rfl, rfl⟩, ?_⟩
  have hstep : refreshStep exts [] e = [] := by
    unfold refreshStep
    rw [hstat]
    split_ifs <;> rfl
  show (Except.ok (List.foldl (refreshStep exts) [] [e]).length,
      ({ index := List.foldl (refreshStep exts) [] [e], is_stale := false }
        : IndexerState))
    = (Except.ok 0, ⟨[], false⟩)
  rw [List.foldl_cons, List.foldl_nil, hstep]
  rfl

/-- Witness for C9: a regular text-extension entry whose stat fails is
skipped and the refresh still succeeds over a previously stale index. -/
theorem c9_refresh_error_handling_witness :
    refresh (Dir.entries [⟨['a'], ['.', 't', 'x', 't'], true, none⟩]) [] ⟨[], true⟩
      = (Except.ok 0, ⟨[], false⟩) :=
  (c9_refresh_error_handling [] ⟨[], true⟩
    ⟨['a'], ['.', 't', 'x', 't'], true, none⟩ rfl).2.2.2.2

/-- C7: for a single-line file, the text parser matches exactly when the
case-folded query is a substring of the case-folded line if
`case_sensitive` is false, and exactly when the query is a verbatim
substring of the line if it is true; in particular the query John matches
the line john smith exactly when `case_sensitive` is false. -/
theorem c7_casefold_matching (q line fn fp : List Char) (sz th : Nat)
    (hne : line ≠ []) (h : ∀ c ∈ line, c ≠ '\n' ∧ c ≠ '\r') :
    (textParse asciiCasefold false q fn fp sz th line ≠ []
      ↔ isSub (foldStr asciiCasefold q) (foldStr asciiCasefold line) = true)
    ∧ (textParse asciiCasefold true q fn fp sz th line ≠ [] ↔ isSub q line = true)
    ∧ (textParse asciiCasefold false ['J', 'o', 'h', 'n'] fn fp sz th
        ['j', 'o', 'h', 'n', ' ', 's', 'm', 'i', 't', 'h'] ≠ []
      ∧ textParse asciiCasefold true ['J', 'o', 'h', 'n'] fn fp sz th
        ['j', 'o', 'h', 'n', ' ', 's', 'm', 'i', 't', 'h'] = []) := by
  have hsingle := readLines_single line hne h sz th
  have hjohn := readLines_single ['j', 'o', 'h', 'n', ' ', 's', 'm', 'i', 't', 'h']
    (by decide) (by decide) sz th
  refine ⟨?_, ?_, ?_, ?_⟩
  · unfold textParse
    rw [hsingle]
    by_cases hm : isSub (foldStr asciiCasefold q) (foldStr asciiCasefold line) = true
    · simp [lineMatches, hm]
    · simp [lineMatches, hm]
  · unfold textParse
    rw [hsingle]
    by_cases hm : isSub q line = true
    · simp [lineMatches, hm]
    · simp [lineMatches, hm]
  · unfold textParse
    rw [hjohn]
    have hm : lineMatches asciiCasefold false ['J', 'o', 'h', 'n']
        ['j', 'o', 'h', 'n', ' ', 's', 'm', 'i', 't', 'h'] = true := by decide
    simp [hm]
  · unfold textParse
    rw [hjohn]
    have hm : lineMatches asciiCasefold true ['J', 'o', 'h', 'n']
        ['j', 'o', 'h', 'n', ' ', 's', 'm', 'i', 't', 'h'] = false := by decide
    simp [hm]

/-- Witness for C7 at the John versus john smith instance. -/
theorem c7_casefold_matching_witness :
    textParse asciiCasefold false ['J', 'o', 'h', 'n'] [] [] 0 0
      ['j', 'o', 'h', 'n', ' ', 's', 'm', 'i', 't', 'h'] ≠ []
    ∧ textParse asciiCasefold true ['J', 'o', 'h', 'n'] [] [] 0 0
      ['j', 'o', 'h', 'n', ' ', 's', 'm', 'i', 't', 'h'] = [] :=
  (c7_casefold_matching ['J', 'o', 'h', 'n']
    ['j', 'o', 'h', 'n', ' ', 's', 'm', 'i', 't', 'h'] [] [] 0 0
    (by decide) (by decide)).2.2

/-- C10: every match emitted by the text and SQL parsers carries as content
some streamed line with all leading and trailing whitespace fully
stripped (and the corresponding TXT or SQL tag), while every match emitted
by the CSV parser carries as content its row's fields joined with the
two-character separator comma-space, with no further stripping. -/
theorem c10_content_fields (fold : Char → List Char) (caseS : Bool)
    (q fn fp : List Char) (sz th : Nat) (content : List Char)
    (rows : List (List (List Char))) :
    (∀ r ∈ textParse fold caseS q fn fp sz th content,
      ∃ p ∈ readLines sz th content,
        r.content = pyStrip p.2 ∧ r.match_type = MatchType.txt)
    ∧ (∀ r ∈ sqlParse fold caseS q fn fp sz th content,
      ∃ p ∈ readLines sz th content,
        r.content = pyStrip p.2 ∧ r.match_type = MatchType.sql)
    ∧ (∀ r ∈ csvParse fold caseS q fn fp rows,
      ∃ row ∈ rows,
        r.content = List.intercalate [',', ' '] row
          ∧ r.match_type = MatchType.csv) := by
  refine ⟨?_, ?_, ?_⟩
  · intro r hr
    unfold textParse at hr
    rcases List.mem_filterMap.mp hr with ⟨p, hp, hf⟩
    refine ⟨p, hp, ?_⟩
    by_cases hm : lineMatches fold caseS q p.2 = true
    · rw [if_pos hm] at hf
      have := Option.some.inj hf
      subst this
      exact ⟨rfl, rfl⟩
    · rw [if_neg hm] at hf
      cases hf
  · intro r hr
    unfold sqlParse at hr
    rcases List.mem_filterMap.mp hr with ⟨p, hp, hf⟩
    refine ⟨p, hp, ?_⟩
    by_cases hm : lineMatches fold caseS q p.2 = true
    · rw [if_pos hm] at hf
      have := Option.some.inj hf
      subst this
      exact ⟨rfl, rfl⟩
    · rw [if_neg hm] at hf
      cases hf
  · intro r hr
    unfold csvParse at hr
    rcases List.mem_filterMap.mp hr with ⟨p, hp, hf⟩
    refine ⟨p.2, numberFrom_mem rows 1 p hp, ?_⟩
    by_cases hm : (if caseS then isSub q (List.intercalate [',', ' '] p.2)
        else isSub (foldStr fold q)
          (foldStr fold (List.intercalate [',', ' '] p.2))) = true
    · rw [if_pos hm] at hf
      have := Option.some.inj hf
      subst this
      exact ⟨rfl, rfl⟩
    · rw [if_neg hm] at hf
      cases hf

/-- Witness for C10 at a one-line text file matching its query. -/
theorem c10_content_fields_witness :
    ∃ p ∈ readLines 0 0 ['h', 'i'],
      (⟨[], [], 1, ['h', 'i'], MatchType.txt⟩ : SearchResult).content = pyStrip p.2
        ∧ (⟨[], [], 1, ['h', 'i'], MatchType.txt⟩ : SearchResult).match_type
            = MatchType.txt :=
  (c10_content_fields asciiCasefold false ['h'] [] [] 0 0 ['h', 'i'] []).1
    ⟨[], [], 1, ['h', 'i'], MatchType.txt⟩ (by decide)

end DbSearcher
